import Mathlib

/-!
Verification of the progress-tracking, badge-awarding and lane-generation
core of the learning-lanes application.

The embedding mirrors the TypeScript source:
- src/lib/firestore.ts : updateWatchProgress, awardBadge, checkAndAwardBadges
- src/components (content modal) : the saveProgress wrapper with its
  duration guard
- src/lib/laneGenerator.ts : the generate pipeline (search collection,
  dedup, ranking-selection bounds checks)
- the Gemini provider : generateJSON fenced-code-block recovery
- src/lib/youtube.ts : parseDuration, formatDuration

Conventions: JavaScript numbers carrying playback positions and durations
become rationals; timestamps (Date values) become abstract natural-number
instants; the document store becomes a function from document id to an
optional document (a set/update at an id is a functional override).  All
functions are total, which models the fact that the corresponding
TypeScript never throws on the paths considered.
-/

/-- Math.round on a rational: round half toward positive infinity,
which is the JavaScript semantics. -/
def jsRound (q : ℚ) : ℤ := ⌊q + 1 / 2⌋

-- ===================== Progress tracker (firestore.ts) =====================

/-- Watch record as stored in the watchHistory collection
(types.ts WatchRecord).  completedAt is optional; the completed flag is
the stored boolean. -/
structure WatchRecord where
  id : String
  profileId : String
  laneId : String
  itemId : String
  lastPosition : ℚ
  duration : ℚ
  progressPercent : ℤ
  completed : Bool
  startedAt : ℕ
  updatedAt : ℕ
  completedAt : Option ℕ
deriving DecidableEq, Repr

/-- The watchHistory collection, keyed by document id. -/
def WatchStore : Type := String → Option WatchRecord

def emptyWatchStore : WatchStore := fun _ => none

/-- Document id used by updateWatchProgress: `${profileId}_${itemId}`. -/
def watchKey (profileId itemId : String) : String := profileId ++ "_" ++ itemId

/-- progressPercent computation of updateWatchProgress (firestore.ts:190):
duration > 0 ? Math.round((currentPosition / duration) * 100) : 0. -/
def progressPercentOf (pos dur : ℚ) : ℤ :=
  if dur > 0 then jsRound (pos / dur * 100) else 0

/-- completed computation of updateWatchProgress (firestore.ts:191):
progressPercent >= 90. -/
def completedOf (pp : ℤ) : Bool := decide (90 ≤ pp)

/-- Result of updateWatchProgress: the new collection state, the returned
record and the returned newlyCompleted flag. -/
structure UpdateResult where
  store : WatchStore
  record : WatchRecord
  newlyCompleted : Bool

/-- Embedding of updateWatchProgress (firestore.ts:178-269).  The two
branches follow the source: an existing document is updated in place
(updateDoc leaves laneId, profileId, itemId, startedAt and - unless newly
completed - completedAt untouched), a missing one is created with setDoc.
The stored timestamps are kept as the abstract instants themselves, which
models the toISOString / new Date round trip as the identity. -/
def updateWatchProgress (store : WatchStore) (profileId laneId itemId : String)
    (currentPosition duration : ℚ) (now : ℕ) : UpdateResult :=
  let id := watchKey profileId itemId
  let progressPercent := progressPercentOf currentPosition duration
  let completed := completedOf progressPercent
  match store id with
  | some existingData =>
    let wasCompleted := existingData.completed
    let newlyCompleted := completed && !wasCompleted
    let stored : WatchRecord :=
      { existingData with
        lastPosition := currentPosition
        duration := duration
        progressPercent := progressPercent
        completed := completed
        updatedAt := now
        completedAt := if newlyCompleted then some now else existingData.completedAt }
    { store := fun k => if k = id then some stored else store k
      record :=
        { id := id
          profileId := profileId
          laneId := laneId
          itemId := itemId
          lastPosition := currentPosition
          duration := duration
          progressPercent := progressPercent
          completed := completed
          startedAt := existingData.startedAt
          updatedAt := now
          completedAt := if newlyCompleted then some now else existingData.completedAt }
      newlyCompleted := newlyCompleted }
  | none =>
    let watchRecord : WatchRecord :=
      { id := id
        profileId := profileId
        laneId := laneId
        itemId := itemId
        lastPosition := currentPosition
        duration := duration
        progressPercent := progressPercent
        completed := completed
        startedAt := now
        updatedAt := now
        completedAt := if completed then some now else none }
    { store := fun k => if k = id then some watchRecord else store k
      record := watchRecord
      newlyCompleted := completed }

/-- Embedding of the saveProgress callback of the content modal component
(the player UI).  It guards on the profile role and returns without any
write when the sampled duration is not positive, then delegates to
updateWatchProgress through saveWatchProgress. -/
def contentModalSaveProgress (role : String) (store : WatchStore)
    (profileId laneId itemId : String) (pos dur : ℚ) (now : ℕ) : WatchStore :=
  if role ≠ "child" then store
  else if dur ≤ 0 then store
  else (updateWatchProgress store profileId laneId itemId pos dur now).store

example : progressPercentOf 45 60 = 75 := by norm_num [progressPercentOf, jsRound]
example : progressPercentOf 0 0 = 0 := by norm_num [progressPercentOf]

-- Helper lemmas about updateWatchProgress

theorem updateWatchProgress_record_computed (store : WatchStore) (p l i : String)
    (pos dur : ℚ) (now : ℕ) :
    (updateWatchProgress store p l i pos dur now).record.progressPercent
        = progressPercentOf pos dur ∧
    (updateWatchProgress store p l i pos dur now).record.completed
        = completedOf (progressPercentOf pos dur) := by
  unfold updateWatchProgress
  cases h : store (watchKey p i) <;> simp [h]

/-- C1: the claim states that updateWatchProgress with duration = 0 is a
no-op that creates no record.  This is false: the call still writes.  On an
empty collection a fresh record is created at the document key. -/
theorem C1_counterexample :
    emptyWatchStore (watchKey "p" "i") = none ∧
    (updateWatchProgress emptyWatchStore "p" "l" "i" 0 0 0).store (watchKey "p" "i") ≠ none := by
  constructor
  · rfl
  · unfold updateWatchProgress emptyWatchStore
    simp

/-- C1 (amended): a duration = 0 call to updateWatchProgress throws no
error (the function is total) and stores progressPercent = 0 with
completed = false, creating a record when none exists; the actual no-op
guard for non-positive durations lives in the UI saveProgress wrapper,
which returns without writing. -/
theorem C1_amended (store : WatchStore) (p l i : String) (pos : ℚ) (now : ℕ)
    (role : String) :
    (updateWatchProgress store p l i pos 0 now).record.progressPercent = 0 ∧
    (updateWatchProgress store p l i pos 0 now).record.completed = false ∧
    (updateWatchProgress store p l i pos 0 now).newlyCompleted = false ∧
    contentModalSaveProgress role store p l i pos 0 now = store := by
  have hpp : progressPercentOf pos 0 = 0 := by simp [progressPercentOf]
  have hco : completedOf (progressPercentOf pos 0) = false := by
    simp [hpp, completedOf]
  refine ⟨?_, ?_, ?_, ?_⟩
  · rw [(updateWatchProgress_record_computed store p l i pos 0 now).1, hpp]
  · rw [(updateWatchProgress_record_computed store p l i pos 0 now).2, hco]
  · unfold updateWatchProgress
    cases h : store (watchKey p i) <;> simp [h, hco]
  · unfold contentModalSaveProgress
    by_cases hr : role = "child" <;> simp [hr]

/-- C2: the claim states that the completed flag is monotonic and that
completedAt, once set, is never changed by a later call.  Both parts fail
on the code: a later sample with computed progress below 90 percent
overwrites completed back to false, and a subsequent re-completion then
overwrites completedAt with the new instant. -/
theorem C2_counterexample :
    (updateWatchProgress emptyWatchStore "p" "l" "i" 95 100 0).record.completed = true ∧
    (updateWatchProgress emptyWatchStore "p" "l" "i" 95 100 0).record.completedAt = some 0 ∧
    (updateWatchProgress
      (updateWatchProgress emptyWatchStore "p" "l" "i" 95 100 0).store
      "p" "l" "i" 10 100 1).record.completed = false ∧
    (updateWatchProgress
      (updateWatchProgress
        (updateWatchProgress emptyWatchStore "p" "l" "i" 95 100 0).store
        "p" "l" "i" 10 100 1).store
      "p" "l" "i" 95 100 2).record.completedAt = some 2 := by
  have h95 : progressPercentOf 95 100 = 95 := by norm_num [progressPercentOf, jsRound]
  have h10 : progressPercentOf 10 100 = 10 := by norm_num [progressPercentOf, jsRound]
  have hc95 : completedOf (progressPercentOf 95 100) = true := by
    rw [h95]; simp [completedOf]
  have hc10 : completedOf (progressPercentOf 10 100) = false := by
    rw [h10]; simp [completedOf]
  unfold updateWatchProgress emptyWatchStore
  simp [hc95, hc10]

/-- C2 (amended): a single call on a record that is already completed
reports newlyCompleted = false and leaves completedAt untouched, but the
completed flag itself is overwritten with the freshly computed value of
the new sample, so it reverts to false when the computed progress is
below the threshold; completedAt is rewritten only on a later
not-completed-to-completed transition. -/
theorem C2_amended (store : WatchStore) (p l i : String) (pos dur : ℚ) (now : ℕ)
    (e : WatchRecord) (he : store (watchKey p i) = some e) (hc : e.completed = true) :
    (updateWatchProgress store p l i pos dur now).newlyCompleted = false ∧
    (updateWatchProgress store p l i pos dur now).store (watchKey p i) =
      some { e with
        lastPosition := pos
        duration := dur
        progressPercent := progressPercentOf pos dur
        completed := completedOf (progressPercentOf pos dur)
        updatedAt := now } := by
  unfold updateWatchProgress
  simp [he, hc]

/-- Fixed store used to witness the amended C2 statement: one already
completed record for item i of profile p. -/
def c2SampleRecord : WatchRecord :=
  { id := watchKey "p" "i", profileId := "p", laneId := "l", itemId := "i"
    lastPosition := 95, duration := 100, progressPercent := 95, completed := true
    startedAt := 0, updatedAt := 0, completedAt := some 0 }

def c2SampleStore : WatchStore :=
  fun k => if k = watchKey "p" "i" then some c2SampleRecord else none

theorem C2_witness :
    (updateWatchProgress c2SampleStore "p" "l" "i" 10 100 1).newlyCompleted = false ∧
    (updateWatchProgress c2SampleStore "p" "l" "i" 10 100 1).store (watchKey "p" "i") =
      some { c2SampleRecord with
        lastPosition := 10
        duration := 100
        progressPercent := progressPercentOf 10 100
        completed := completedOf (progressPercentOf 10 100)
        updatedAt := 1 } :=
  C2_amended c2SampleStore "p" "l" "i" 10 100 1 c2SampleRecord
    (by simp [c2SampleStore]) (by rfl)

/-- C3: for duration > 0 the stored and returned progressPercent is the
rounded percentage round(100 * position / duration) and the computed
completed flag holds exactly when that percentage is at least 90. -/
theorem C3_progress_formula (store : WatchStore) (p l i : String) (pos dur : ℚ)
    (now : ℕ) (hd : 0 < dur) :
    (updateWatchProgress store p l i pos dur now).record.progressPercent
        = jsRound (100 * pos / dur) ∧
    ((updateWatchProgress store p l i pos dur now).record.completed = true ↔
      90 ≤ (updateWatchProgress store p l i pos dur now).record.progressPercent) := by
  obtain ⟨hpp, hco⟩ := updateWatchProgress_record_computed store p l i pos dur now
  constructor
  · rw [hpp]
    unfold progressPercentOf
    rw [if_pos hd]
    have : pos / dur * 100 = 100 * pos / dur := by ring
    rw [this]
  · rw [hpp, hco]
    simp [completedOf]

theorem C3_witness :
    (updateWatchProgress emptyWatchStore "p" "l" "i" 45 60 7).record.progressPercent
        = jsRound (100 * 45 / 60) ∧
    ((updateWatchProgress emptyWatchStore "p" "l" "i" 45 60 7).record.completed = true ↔
      90 ≤ (updateWatchProgress emptyWatchStore "p" "l" "i" 45 60 7).record.progressPercent) :=
  C3_progress_formula emptyWatchStore "p" "l" "i" 45 60 7 (by norm_num)

/-- C4: the claim states that a second call with identical position and
duration produces the same stored record.  It does not: updatedAt is
refreshed to the time of the second call, so the two stored records
differ whenever the calls carry different instants. -/
theorem C4_counterexample :
    (updateWatchProgress
      (updateWatchProgress emptyWatchStore "p" "l" "i" 50 100 0).store
      "p" "l" "i" 50 100 1).store (watchKey "p" "i") ≠
    (updateWatchProgress emptyWatchStore "p" "l" "i" 50 100 0).store (watchKey "p" "i") := by
  unfold updateWatchProgress emptyWatchStore
  simp

/-- C4 (amended): a second call with identical position and duration
returns newlyCompleted = false and reproduces both the stored and the
returned record of the first call except for the updatedAt bookkeeping
field, which is set to the instant of the second call (so the two calls
agree exactly when they carry the same instant). -/
theorem C4_amended (store : WatchStore) (p l i : String) (pos dur : ℚ) (t1 t2 : ℕ) :
    (updateWatchProgress (updateWatchProgress store p l i pos dur t1).store
        p l i pos dur t2).newlyCompleted = false ∧
    (updateWatchProgress (updateWatchProgress store p l i pos dur t1).store
        p l i pos dur t2).record
      = { (updateWatchProgress store p l i pos dur t1).record with updatedAt := t2 } ∧
    ∃ e1, (updateWatchProgress store p l i pos dur t1).store (watchKey p i) = some e1 ∧
      (updateWatchProgress (updateWatchProgress store p l i pos dur t1).store
          p l i pos dur t2).store (watchKey p i) = some { e1 with updatedAt := t2 } := by
  unfold updateWatchProgress
  cases h : store (watchKey p i) <;> simp [h]

-- ===================== Badge engine (firestore.ts) =====================

/-- Lane item; only the id field is consulted by the badge engine. -/
structure LaneItem where
  id : String
deriving DecidableEq, Repr

/-- Lane together with its items (types.ts LaneWithItems). -/
structure LaneWithItems where
  id : String
  profileId : String
  title : String
  category : String
  isActive : Bool
  sortOrder : ℤ
  items : List LaneItem
deriving DecidableEq, Repr

/-- The closed set of badge kinds (types.ts BadgeType). -/
inductive BadgeType where
  | first_watch
  | five_videos
  | ten_videos
  | twenty_five_videos
  | lane_master
  | explorer
deriving DecidableEq, Repr

/-- The string value of each badge kind, as used in document ids. -/
def BadgeType.str : BadgeType → String
  | .first_watch => "first_watch"
  | .five_videos => "five_videos"
  | .ten_videos => "ten_videos"
  | .twenty_five_videos => "twenty_five_videos"
  | .lane_master => "lane_master"
  | .explorer => "explorer"

/-- Earned badge document (types.ts EarnedBadge); metadata is an optional
string-to-string record, modelled as an association list. -/
structure EarnedBadge where
  id : String
  profileId : String
  badgeType : BadgeType
  earnedAt : ℕ
  metadata : Option (List (String × String))
deriving DecidableEq, Repr

/-- The earnedBadges collection, keyed by document id. -/
def BadgeStore : Type := String → Option EarnedBadge

def emptyBadgeStore : BadgeStore := fun _ => none

/-- Document id used by awardBadge: `${profileId}_${badgeType}`. -/
def badgeKey (profileId : String) (t : BadgeType) : String :=
  profileId ++ "_" ++ t.str

/-- The badge document awardBadge builds when the badge is not yet held. -/
def mkBadge (profileId : String) (t : BadgeType)
    (metadata : Option (List (String × String))) (now : ℕ) : EarnedBadge :=
  { id := badgeKey profileId t, profileId := profileId, badgeType := t
    earnedAt := now, metadata := metadata }

/-- Embedding of awardBadge (firestore.ts:360-392): look up the
(profile, badge-kind) document; if it exists return null and write
nothing, otherwise create and return the badge. -/
def awardBadge (store : BadgeStore) (profileId : String) (badgeType : BadgeType)
    (metadata : Option (List (String × String))) (now : ℕ) :
    BadgeStore × Option EarnedBadge :=
  let id := badgeKey profileId badgeType
  match store id with
  | some _ => (store, none)
  | none =>
    let badge := mkBadge profileId badgeType metadata now
    (fun k => if k = id then some badge else store k, some badge)

/-- One conditional award step of checkAndAwardBadges: when the trigger
condition holds, call awardBadge and append a non-null result to the
accumulated list of new badges. -/
def condAward (cond : Bool) (profileId : String) (t : BadgeType)
    (md : Option (List (String × String))) (now : ℕ) :
    BadgeStore × List EarnedBadge → BadgeStore × List EarnedBadge :=
  fun st =>
    if cond then
      match awardBadge st.1 profileId t md now with
      | (s, some b) => (s, st.2 ++ [b])
      | (s, none) => (s, st.2)
    else st

/-- Lane-master trigger for one lane (firestore.ts:438-439): the lane has
at least one item and every item id has a completed record. -/
def laneFullyCompleted (completedItemIds : List String) (lane : LaneWithItems) : Bool :=
  decide (0 < lane.items.length) &&
    lane.items.all (fun item => completedItemIds.contains item.id)

/-- Distinct categories of the lanes of the completed records
(firestore.ts:449-455); the source accumulates them in a Set, whose size
is the number of distinct values. -/
def categoriesCompleted (completedRecords : List WatchRecord)
    (lanes : List LaneWithItems) : List String :=
  (completedRecords.filterMap
    (fun r => (lanes.find? (fun l2 => l2.id == r.laneId)).map
      (fun l2 => l2.category))).dedup

/-- Embedding of checkAndAwardBadges (firestore.ts:398-462).  The source
is a straight-line sequence of conditional awards; the for-loop over
lanes with a break on the first fully completed lane is the first match
of laneFullyCompleted.  Steps run in source order: first_watch,
five_videos, ten_videos, twenty_five_videos, lane_master, explorer. -/
def checkAndAwardBadges (store : BadgeStore) (profileId : String)
    (watchHistory : List WatchRecord) (lanes : List LaneWithItems) (now : ℕ) :
    BadgeStore × List EarnedBadge :=
  let completedRecords := watchHistory.filter (fun w => w.completed)
  let totalCompleted := completedRecords.length
  let completedItemIds := completedRecords.map (fun w => w.itemId)
  let laneHit := lanes.find? (laneFullyCompleted completedItemIds)
  let cats := categoriesCompleted completedRecords lanes
  condAward (decide (4 ≤ cats.length)) profileId .explorer none now
    (condAward laneHit.isSome profileId .lane_master
      (laneHit.map (fun lane => [("laneId", lane.id), ("laneTitle", lane.title)])) now
      (condAward (decide (25 ≤ totalCompleted)) profileId .twenty_five_videos none now
        (condAward (decide (10 ≤ totalCompleted)) profileId .ten_videos none now
          (condAward (decide (5 ≤ totalCompleted)) profileId .five_videos none now
            (condAward (decide (1 ≤ totalCompleted)) profileId .first_watch none now
              (store, []))))))

-- Badge key disjointness

theorem string_append_left_cancel (p a b : String) (h : p ++ a = p ++ b) : a = b := by
  have h2 : (p ++ a).data = (p ++ b).data := by rw [h]
  simp [String.data_append] at h2
  exact String.ext h2

theorem badgeTypeStr_inj (t1 t2 : BadgeType) (h : t1.str = t2.str) : t1 = t2 := by
  cases t1 <;> cases t2 <;> simp_all [BadgeType.str]

theorem badgeKey_inj (p : String) (t1 t2 : BadgeType) :
    badgeKey p t1 = badgeKey p t2 ↔ t1 = t2 := by
  constructor
  · intro h
    exact badgeTypeStr_inj t1 t2 (string_append_left_cancel (p ++ "_") _ _ h)
  · intro h
    rw [h]

-- Invariant of the award chain: every accumulated badge is newly stored,
-- everything newly stored is accumulated, old documents survive, and the
-- accumulated ids are distinct.

def BadgeInv (s0 : BadgeStore) (st : BadgeStore × List EarnedBadge) : Prop :=
  (∀ b ∈ st.2, s0 b.id = none ∧ st.1 b.id = some b) ∧
  (∀ k b, s0 k = none → st.1 k = some b → b ∈ st.2) ∧
  (∀ k v, s0 k = some v → st.1 k = some v) ∧
  (st.2.map (fun b => b.id)).Nodup

theorem badgeInv_init (s0 : BadgeStore) : BadgeInv s0 (s0, []) := by
  refine ⟨by simp, ?_, by simp, by simp⟩
  intro k b hk hs
  exact absurd hs (by simp [hk])

theorem condAward_skip (p : String) (t : BadgeType) (md : Option (List (String × String)))
    (now : ℕ) (st : BadgeStore × List EarnedBadge) :
    condAward false p t md now st = st := by
  unfold condAward
  simp

theorem condAward_held (p : String) (t : BadgeType) (md : Option (List (String × String)))
    (now : ℕ) (st : BadgeStore × List EarnedBadge) (v : EarnedBadge)
    (hk : st.1 (badgeKey p t) = some v) :
    condAward true p t md now st = st := by
  unfold condAward awardBadge
  simp [hk]

theorem condAward_new (p : String) (t : BadgeType) (md : Option (List (String × String)))
    (now : ℕ) (st : BadgeStore × List EarnedBadge)
    (hk : st.1 (badgeKey p t) = none) :
    condAward true p t md now st =
      (fun k => if k = badgeKey p t then some (mkBadge p t md now) else st.1 k,
       st.2 ++ [mkBadge p t md now]) := by
  unfold condAward awardBadge
  simp [hk]

theorem condAward_inv (s0 : BadgeStore) (st : BadgeStore × List EarnedBadge)
    (c : Bool) (p : String) (t : BadgeType) (md : Option (List (String × String)))
    (now : ℕ) (h : BadgeInv s0 st) : BadgeInv s0 (condAward c p t md now st) := by
  obtain ⟨h1, h2, h3, h4⟩ := h
  cases c with
  | false =>
    rw [condAward_skip]
    exact ⟨h1, h2, h3, h4⟩
  | true =>
    cases hk : st.1 (badgeKey p t) with
    | some v =>
      rw [condAward_held p t md now st v hk]
      exact ⟨h1, h2, h3, h4⟩
    | none =>
      rw [condAward_new p t md now st hk]
      have hid : (mkBadge p t md now).id = badgeKey p t := rfl
      have hs0 : s0 (badgeKey p t) = none := by
        cases ha : s0 (badgeKey p t) with
        | none => rfl
        | some v => rw [h3 _ _ ha] at hk; exact absurd hk (by simp)
      refine ⟨?_, ?_, ?_, ?_⟩
      · intro b hb
        simp only [List.mem_append, List.mem_singleton] at hb
        cases hb with
        | inl hb =>
          obtain ⟨ha, hbs⟩ := h1 b hb
          have hne : b.id ≠ badgeKey p t := by
            intro he
            rw [he, hk] at hbs
            exact absurd hbs (by simp)
          exact ⟨ha, by simp only [if_neg hne]; exact hbs⟩
        | inr hb =>
          subst hb
          exact ⟨by rw [hid]; exact hs0, by simp [hid]⟩
      · intro k b hknone hsk
        by_cases hke : k = badgeKey p t
        · subst hke
          have hb : b = mkBadge p t md now := by simpa [eq_comm] using hsk
          simp [hb]
        · simp only [if_neg hke] at hsk
          exact List.mem_append_left _ (h2 k b hknone hsk)
      · intro k v hv
        have hke : k ≠ badgeKey p t := by
          intro he
          rw [he] at hv
          rw [h3 _ _ hv] at hk
          exact absurd hk (by simp)
        simp only [if_neg hke]
        exact h3 k v hv
      · simp only [List.map_append, List.map_cons, List.map_nil]
        rw [List.nodup_append]
        refine ⟨h4, List.nodup_singleton _, ?_⟩
        intro x hx
        obtain ⟨b, hb, hbid⟩ := List.mem_map.mp hx
        obtain ⟨_, hbs⟩ := h1 b hb
        simp only [List.mem_singleton]
        intro he
        have hbk : b.id = badgeKey p t := by rw [hbid, he, hid]
        rw [hbk, hk] at hbs
        exact absurd hbs (by simp)

/-- Straight-line award sequence, used to reason uniformly about the six
conditional award steps of checkAndAwardBadges. -/
def runAwards (p : String) (now : ℕ) :
    List (Bool × BadgeType × Option (List (String × String))) →
    BadgeStore × List EarnedBadge → BadgeStore × List EarnedBadge
  | [], st => st
  | (c, t, md) :: rest, st => runAwards p now rest (condAward c p t md now st)

/-- The completed records of a history (firestore.ts:406). -/
def completedOnly (history : List WatchRecord) : List WatchRecord :=
  history.filter (fun w => w.completed)

/-- The item ids of the completed records (firestore.ts:408). -/
def completedIdsOf (history : List WatchRecord) : List String :=
  (completedOnly history).map (fun w => w.itemId)

/-- The first fully completed lane, if any (firestore.ts:437-444). -/
def laneHitOf (history : List WatchRecord) (lanes : List LaneWithItems) :
    Option LaneWithItems :=
  lanes.find? (laneFullyCompleted (completedIdsOf history))

/-- The distinct categories spanned by completed records. -/
def catsOf (history : List WatchRecord) (lanes : List LaneWithItems) : List String :=
  categoriesCompleted (completedOnly history) lanes

theorem checkAndAwardBadges_eq_runAwards (store : BadgeStore) (p : String)
    (history : List WatchRecord) (lanes : List LaneWithItems) (now : ℕ) :
    checkAndAwardBadges store p history lanes now =
      runAwards p now
        [(decide (1 ≤ (completedOnly history).length), .first_watch, none),
         (decide (5 ≤ (completedOnly history).length), .five_videos, none),
         (decide (10 ≤ (completedOnly history).length), .ten_videos, none),
         (decide (25 ≤ (completedOnly history).length), .twenty_five_videos, none),
         ((laneHitOf history lanes).isSome, .lane_master,
          (laneHitOf history lanes).map
            (fun lane => [("laneId", lane.id), ("laneTitle", lane.title)])),
         (decide (4 ≤ (catsOf history lanes).length), .explorer, none)]
        (store, []) := rfl

theorem runAwards_out (p : String) (now : ℕ)
    (steps : List (Bool × BadgeType × Option (List (String × String))))
    (s : BadgeStore) (acc : List EarnedBadge)
    (hk : ∀ x ∈ steps, s (badgeKey p x.2.1) = none)
    (hd : (steps.map (fun x => x.2.1)).Nodup) :
    (runAwards p now steps (s, acc)).2 =
      acc ++ steps.filterMap
        (fun x => if x.1 then some (mkBadge p x.2.1 x.2.2 now) else none) := by
  induction steps generalizing s acc with
  | nil => simp [runAwards]
  | cons x rest ih =>
    obtain ⟨c, t, md⟩ := x
    simp only [List.map_cons, List.nodup_cons] at hd
    obtain ⟨hdt, hdr⟩ := hd
    have hks : s (badgeKey p t) = none := hk _ (List.mem_cons_self _ _)
    cases c with
    | false =>
      simp only [runAwards]
      rw [condAward_skip]
      rw [ih s acc (fun y hy => hk y (List.mem_cons_of_mem _ hy)) hdr]
      simp [List.filterMap_cons]
    | true =>
      simp only [runAwards]
      rw [condAward_new p t md now (s, acc) hks]
      have hk2 : ∀ y ∈ rest,
          (fun k => if k = badgeKey p t then some (mkBadge p t md now) else s k)
            (badgeKey p y.2.1) = none := by
        intro y hy
        have hne : badgeKey p y.2.1 ≠ badgeKey p t := by
          intro he
          have := (badgeKey_inj p y.2.1 t).mp he
          exact hdt (this ▸ List.mem_map_of_mem (fun z => z.2.1) hy)
        simp only [if_neg hne]
        exact hk y (List.mem_cons_of_mem _ hy)
      rw [ih _ (acc ++ [mkBadge p t md now]) hk2 hdr]
      simp [List.filterMap_cons]

theorem filterMapStep (p : String) (now : ℕ) (c : Bool) (t : BadgeType)
    (md : Option (List (String × String)))
    (rest : List (Bool × BadgeType × Option (List (String × String)))) :
    List.filterMap (fun x => if x.1 then some (mkBadge p x.2.1 x.2.2 now) else none)
      ((c, t, md) :: rest) =
      (if c then [mkBadge p t md now] else []) ++
      List.filterMap (fun x => if x.1 then some (mkBadge p x.2.1 x.2.2 now) else none)
        rest := by
  cases c <;> simp

theorem mem_ite_singleton {α : Type} (b x : α) (c : Prop) [Decidable c] :
    b ∈ (if c then [x] else []) ↔ c ∧ b = x := by
  by_cases h : c <;> simp [h]

/-- C5: at most one badge document per (profile, badge kind): the second
of two awards for the same pair returns null and leaves the collection
unchanged while the document is present after the first; and every
checkAndAwardBadges pass returns exactly the badges newly created in
that pass - each returned badge was absent before and is stored after,
every newly stored badge is returned, previously stored badges survive
untouched, and the returned ids contain no duplicates. -/
theorem C5_badge_idempotence :
    (∀ (store : BadgeStore) (p : String) (t : BadgeType)
       (md1 md2 : Option (List (String × String))) (n1 n2 : ℕ),
      (awardBadge (awardBadge store p t md1 n1).1 p t md2 n2).2 = none ∧
      (awardBadge (awardBadge store p t md1 n1).1 p t md2 n2).1
        = (awardBadge store p t md1 n1).1 ∧
      ((awardBadge store p t md1 n1).1 (badgeKey p t)).isSome = true) ∧
    (∀ (store : BadgeStore) (p : String) (history : List WatchRecord)
       (lanes : List LaneWithItems) (now : ℕ),
      (∀ b ∈ (checkAndAwardBadges store p history lanes now).2,
        store b.id = none ∧
        (checkAndAwardBadges store p history lanes now).1 b.id = some b) ∧
      (∀ k b, store k = none →
        (checkAndAwardBadges store p history lanes now).1 k = some b →
        b ∈ (checkAndAwardBadges store p history lanes now).2) ∧
      (∀ k v, store k = some v →
        (checkAndAwardBadges store p history lanes now).1 k = some v) ∧
      ((checkAndAwardBadges store p history lanes now).2.map
        (fun b => b.id)).Nodup) := by
  constructor
  · intro store p t md1 md2 n1 n2
    unfold awardBadge
    cases hk : store (badgeKey p t) with
    | some v => simp [hk]
    | none => simp [hk]
  · intro store p history lanes now
    have h : BadgeInv store (checkAndAwardBadges store p history lanes now) := by
      unfold checkAndAwardBadges
      exact condAward_inv _ _ _ _ _ _ _
        (condAward_inv _ _ _ _ _ _ _
          (condAward_inv _ _ _ _ _ _ _
            (condAward_inv _ _ _ _ _ _ _
              (condAward_inv _ _ _ _ _ _ _
                (condAward_inv _ _ _ _ _ _ _ (badgeInv_init store))))))
    exact ⟨h.1, h.2.1, h.2.2.1, h.2.2.2⟩

/-- C6: badge predicates are evaluated over completed records only, the
count badges trigger at 1, 5, 10 and 25 completed items, lane_master is
awarded for the first fully completed non-empty lane and at most once in
total, with that lane recorded in the badge metadata, and explorer
triggers at 4 distinct completed categories. -/
theorem C6_badge_triggers (p : String) (history : List WatchRecord)
    (lanes : List LaneWithItems) (now : ℕ) :
    (∀ store : BadgeStore,
      checkAndAwardBadges store p history lanes now
        = checkAndAwardBadges store p (history.filter (fun w => w.completed))
            lanes now) ∧
    (checkAndAwardBadges emptyBadgeStore p history lanes now).2 =
      ((if 1 ≤ (completedOnly history).length
        then [mkBadge p .first_watch none now] else []) ++
       (if 5 ≤ (completedOnly history).length
        then [mkBadge p .five_videos none now] else []) ++
       (if 10 ≤ (completedOnly history).length
        then [mkBadge p .ten_videos none now] else []) ++
       (if 25 ≤ (completedOnly history).length
        then [mkBadge p .twenty_five_videos none now] else []) ++
       (match laneHitOf history lanes with
        | some lane =>
          [mkBadge p .lane_master
            (some [("laneId", lane.id), ("laneTitle", lane.title)]) now]
        | none => []) ++
       (if 4 ≤ (catsOf history lanes).length
        then [mkBadge p .explorer none now] else [])) ∧
    (∀ b ∈ (checkAndAwardBadges emptyBadgeStore p history lanes now).2,
      b.badgeType = .lane_master →
      ∃ lane, laneHitOf history lanes = some lane ∧
        b.metadata = some [("laneId", lane.id), ("laneTitle", lane.title)]) := by
  have hout : (checkAndAwardBadges emptyBadgeStore p history lanes now).2 =
      ((if 1 ≤ (completedOnly history).length
        then [mkBadge p .first_watch none now] else []) ++
       (if 5 ≤ (completedOnly history).length
        then [mkBadge p .five_videos none now] else []) ++
       (if 10 ≤ (completedOnly history).length
        then [mkBadge p .ten_videos none now] else []) ++
       (if 25 ≤ (completedOnly history).length
        then [mkBadge p .twenty_five_videos none now] else []) ++
       (match laneHitOf history lanes with
        | some lane =>
          [mkBadge p .lane_master
            (some [("laneId", lane.id), ("laneTitle", lane.title)]) now]
        | none => []) ++
       (if 4 ≤ (catsOf history lanes).length
        then [mkBadge p .explorer none now] else [])) := by
    rw [checkAndAwardBadges_eq_runAwards]
    rw [runAwards_out p now _ emptyBadgeStore []
      (by intro x hx; rfl)
      (by simp only [List.map_cons, List.map_nil]; decide)]
    simp only [List.nil_append, filterMapStep, List.filterMap_nil, List.append_nil]
    cases hl : laneHitOf history lanes with
    | none => simp [decide_eq_true_eq, List.append_assoc]
    | some lane => simp [decide_eq_true_eq, List.append_assoc]
  refine ⟨?_, hout, ?_⟩
  · intro store
    unfold checkAndAwardBadges
    simp only [List.filter_filter, Bool.and_self]
  · intro b hb hbt
    rw [hout] at hb
    simp only [List.mem_append] at hb
    rcases hb with ((((hb | hb) | hb) | hb) | hb) | hb
    · rw [(mem_ite_singleton _ _ _).mp hb |>.2] at hbt
      exact absurd hbt (by simp [mkBadge])
    · rw [(mem_ite_singleton _ _ _).mp hb |>.2] at hbt
      exact absurd hbt (by simp [mkBadge])
    · rw [(mem_ite_singleton _ _ _).mp hb |>.2] at hbt
      exact absurd hbt (by simp [mkBadge])
    · rw [(mem_ite_singleton _ _ _).mp hb |>.2] at hbt
      exact absurd hbt (by simp [mkBadge])
    · cases hl : laneHitOf history lanes with
      | none => rw [hl] at hb; exact absurd hb (by simp)
      | some lane =>
        rw [hl] at hb
        simp only [List.mem_singleton] at hb
        exact ⟨lane, rfl, by rw [hb]; rfl⟩
    · rw [(mem_ite_singleton _ _ _).mp hb |>.2] at hbt
      exact absurd hbt (by simp [mkBadge])

theorem C5_witness :
    mkBadge "p" BadgeType.first_watch none 0 ∈
      (checkAndAwardBadges emptyBadgeStore "p" [c2SampleRecord] [] 0).2 ∧
    (awardBadge (awardBadge emptyBadgeStore "p" BadgeType.first_watch none 0).1
        "p" BadgeType.first_watch none 1).2 = none :=
  ⟨(C5_badge_idempotence.2 emptyBadgeStore "p" [c2SampleRecord] [] 0).2.1
      (badgeKey "p" BadgeType.first_watch) (mkBadge "p" BadgeType.first_watch none 0)
      rfl (by rfl),
   (C5_badge_idempotence.1 emptyBadgeStore "p" BadgeType.first_watch none none 0 1).1⟩

/-- Lane used to witness the lane_master trigger: one lane whose single
item has a completed record. -/
def c6SampleLane : LaneWithItems :=
  { id := "lane1", profileId := "p", title := "L1", category := "School"
    isActive := true, sortOrder := 0, items := [{ id := "i" }] }

theorem C6_witness :
    ∃ lane, laneHitOf [c2SampleRecord] [c6SampleLane] = some lane ∧
      (mkBadge "p" BadgeType.lane_master
        (some [("laneId", c6SampleLane.id), ("laneTitle", c6SampleLane.title)]) 0).metadata
        = some [("laneId", lane.id), ("laneTitle", lane.title)] :=
  (C6_badge_triggers "p" [c2SampleRecord] [c6SampleLane] 0).2.2
    (mkBadge "p" BadgeType.lane_master
      (some [("laneId", c6SampleLane.id), ("laneTitle", c6SampleLane.title)]) 0)
    (by decide) rfl

-- ===================== Lane generation pipeline (laneGenerator.ts) =====================

/-- Video metadata returned by the search service (youtube.ts
YouTubeVideoDetails, restricted to the fields the pipeline consumes). -/
structure Video where
  videoId : String
  title : String
  thumbnailUrl : String
  durationSeconds : ℕ
  channelTitle : String
  viewCount : ℕ
  description : String
deriving DecidableEq, Repr

/-- Query decoration used by the search step (laneGenerator.ts:101):
the query text with a fixed appended string. -/
def decorateQuery (q : String) : String := q ++ " for kids educational"

/-- Candidate accumulation (laneGenerator.ts:110-115): each video of a
search response is appended unless its videoId has already been seen.
The source keeps a separate seenVideoIds set; its content is always
exactly the set of ids of the accumulated list, so membership in that
set is membership among the accumulated ids. -/
def addVideos (acc : List Video) (vids : List Video) : List Video :=
  vids.foldl
    (fun a v => if v.videoId ∈ a.map (fun w => w.videoId) then a else a ++ [v])
    acc

/-- The search step of the pipeline (laneGenerator.ts:94-119): iterate
over at most the first 4 planned queries, call the search service on the
decorated query, skip a failed call, and accumulate deduplicated
candidates.  The service is abstracted as a function from the decorated
query to either an error or a list of videos. -/
def searchStep (svc : String → Except String (List Video)) (queries : List String) :
    List Video :=
  (queries.take 4).foldl
    (fun acc q =>
      match svc (decorateQuery q) with
      | .error _ => acc
      | .ok vids => addVideos acc vids)
    []

/-- First-seen deduplication as the specification describes it: keep
each element at its first occurrence, drop all later duplicates.  Stated
over id lists; used to compare against the accumulation the source
performs. -/
def specFirstSeenDedup : List String → List String
  | [] => []
  | a :: l => a :: specFirstSeenDedup (l.filter (fun x => x ≠ a))
termination_by l => l.length
decreasing_by
  simp only [List.length_cons]
  have := List.length_filter_le (fun x => x ≠ a) l
  omega

/-- The per-query successful results: a failed query contributes the
empty list. -/
def okResults (svc : String → Except String (List Video)) (queries : List String) :
    List (List Video) :=
  (queries.take 4).map
    (fun q =>
      match svc (decorateQuery q) with
      | .error _ => []
      | .ok vids => vids)

/-- The ids of a candidate list. -/
def idsOf (l : List Video) : List String := l.map (fun v => v.videoId)

/-- The id-level shadow of the accumulation loop: same fold, carried out
on the videoId projections. -/
def srcDedupIds : List String → List String → List String
  | acc, [] => acc
  | acc, x :: l => srcDedupIds (if x ∈ acc then acc else acc ++ [x]) l

theorem addVideos_nil (acc : List Video) : addVideos acc [] = acc := rfl

theorem addVideos_append (acc : List Video) (l1 l2 : List Video) :
    addVideos acc (l1 ++ l2) = addVideos (addVideos acc l1) l2 := by
  unfold addVideos
  exact List.foldl_append _ _ _ _

theorem foldl_addVideos (ls : List (List Video)) (acc : List Video) :
    ls.foldl addVideos acc = addVideos acc ls.flatten := by
  induction ls generalizing acc with
  | nil => rfl
  | cons l ls ih =>
    simp only [List.foldl_cons, List.flatten_cons, ih, addVideos_append]

theorem searchStep_eq_foldl (svc : String → Except String (List Video))
    (queries : List String) :
    searchStep svc queries = (okResults svc queries).foldl addVideos [] := by
  unfold searchStep okResults
  rw [List.foldl_map]
  congr 1
  funext acc q
  cases svc (decorateQuery q) <;> rfl

theorem addVideos_ids (vids acc : List Video) :
    idsOf (addVideos acc vids) = srcDedupIds (idsOf acc) (idsOf vids) := by
  induction vids generalizing acc with
  | nil => rfl
  | cons v vids ih =>
    have step : addVideos acc (v :: vids) =
        addVideos (if v.videoId ∈ acc.map (fun w => w.videoId) then acc else acc ++ [v])
          vids := rfl
    have hcons : idsOf (v :: vids) = v.videoId :: idsOf vids := rfl
    rw [step, hcons, srcDedupIds]
    by_cases hc : v.videoId ∈ acc.map (fun w => w.videoId)
    · have hc2 : v.videoId ∈ idsOf acc := hc
      rw [if_pos hc, ih, if_pos hc2]
    · have hc2 : v.videoId ∉ idsOf acc := hc
      rw [if_neg hc, ih, if_neg hc2]
      congr 1
      simp [idsOf]

theorem srcDedupIds_spec (l acc : List String) :
    srcDedupIds acc l =
      acc ++ specFirstSeenDedup (l.filter (fun x => x ∉ acc)) := by
  induction l generalizing acc with
  | nil => simp [srcDedupIds, specFirstSeenDedup]
  | cons x l ih =>
    rw [srcDedupIds]
    by_cases hx : x ∈ acc
    · rw [if_pos hx, ih]
      have hfe : (x :: l).filter (fun y => y ∉ acc) = l.filter (fun y => y ∉ acc) := by
        rw [List.filter_cons]
        simp [hx]
      rw [hfe]
    · rw [if_neg hx, ih]
      have hfe : (x :: l).filter (fun y => y ∉ acc)
          = x :: l.filter (fun y => y ∉ acc) := by
        rw [List.filter_cons]
        simp [hx]
      rw [hfe, specFirstSeenDedup]
      have hff : (l.filter (fun y => y ∉ acc)).filter (fun y => y ≠ x)
          = l.filter (fun y => y ∉ acc ++ [x]) := by
        rw [List.filter_filter]
        apply List.filter_congr
        intro y hy
        simp only [List.mem_append, List.mem_singleton, not_or]
        rw [Bool.decide_and, Bool.and_comm]
      rw [hff]
      simp

theorem specFirstSeenDedup_mem (l : List String) (x : String) :
    x ∈ specFirstSeenDedup l ↔ x ∈ l := by
  induction l using specFirstSeenDedup.induct with
  | case1 => simp [specFirstSeenDedup]
  | case2 a l ih =>
    rw [specFirstSeenDedup]
    by_cases hxa : x = a
    · simp [hxa]
    · simp only [List.mem_cons, ih, List.mem_filter, decide_eq_true_eq]
      constructor
      · intro h
        cases h with
        | inl h => exact absurd h hxa
        | inr h => exact Or.inr h.1
      · intro h
        cases h with
        | inl h => exact absurd h hxa
        | inr h => exact Or.inr ⟨h, hxa⟩

theorem specFirstSeenDedup_nodup (l : List String) :
    (specFirstSeenDedup l).Nodup := by
  induction l using specFirstSeenDedup.induct with
  | case1 => simp [specFirstSeenDedup]
  | case2 a l ih =>
    rw [specFirstSeenDedup]
    refine List.nodup_cons.mpr ⟨?_, ih⟩
    rw [specFirstSeenDedup_mem]
    simp

theorem specFirstSeenDedup_sublist (l : List String) :
    (specFirstSeenDedup l).Sublist l := by
  induction l using specFirstSeenDedup.induct with
  | case1 => simp [specFirstSeenDedup]
  | case2 a l ih =>
    rw [specFirstSeenDedup]
    exact List.cons_sublist_cons.mpr (ih.trans (List.filter_sublist l))

/-- C7: the search step of the generate pipeline consumes at most the
first 4 planned queries; its candidate list carries each media id exactly
once, in first-seen order over the successful query results; and the
failure of one query only removes the results of that query without
failing the step. -/
theorem C7_search_dedup (svc : String → Except String (List Video))
    (queries : List String) :
    searchStep svc queries = searchStep svc (queries.take 4) ∧
    idsOf (searchStep svc queries)
      = specFirstSeenDedup (idsOf (okResults svc queries).flatten) ∧
    (idsOf (searchStep svc queries)).Nodup ∧
    (idsOf (searchStep svc queries)).Sublist (idsOf (okResults svc queries).flatten) ∧
    (∀ x, x ∈ idsOf (searchStep svc queries) ↔
      x ∈ idsOf (okResults svc queries).flatten) ∧
    (∀ q e, svc (decorateQuery q) = .error e →
      searchStep svc queries
        = searchStep (fun s => if s = decorateQuery q then .ok [] else svc s)
            queries) := by
  have hids : idsOf (searchStep svc queries)
      = specFirstSeenDedup (idsOf (okResults svc queries).flatten) := by
    rw [searchStep_eq_foldl, foldl_addVideos, addVideos_ids, srcDedupIds_spec]
    rw [show idsOf ([] : List Video) = [] from rfl, List.nil_append]
    congr 1
    exact List.filter_eq_self.mpr (fun x hx => by simp)
  refine ⟨?_, hids, ?_, ?_, ?_, ?_⟩
  · unfold searchStep
    rw [List.take_take, min_self]
  · rw [hids]
    exact specFirstSeenDedup_nodup _
  · rw [hids]
    exact specFirstSeenDedup_sublist _
  · intro x
    rw [hids]
    exact specFirstSeenDedup_mem _ x
  · intro q e he
    unfold searchStep
    congr 1
    funext acc q2
    by_cases h2 : decorateQuery q2 = decorateQuery q
    · rw [h2, he]
      simp [addVideos_nil]
    · simp [h2]

/-- Sample video used by the pipeline witnesses. -/
def sampleVideo (id : String) : Video :=
  { videoId := id, title := "t", thumbnailUrl := "u", durationSeconds := 300
    channelTitle := "c", viewCount := 1, description := "d" }

/-- Sample search service that fails on one query. -/
def sampleSvc : String → Except String (List Video) :=
  fun s => if s = decorateQuery "bad" then .error "boom" else .ok [sampleVideo "v1"]

theorem C7_witness :
    searchStep sampleSvc ["bad", "good"]
      = searchStep
          (fun s => if s = decorateQuery "bad" then .ok [] else sampleSvc s)
          ["bad", "good"] :=
  (C7_search_dedup sampleSvc ["bad", "good"]).2.2.2.2.2 "bad" "boom" rfl

-- ===================== Ranking selection bounds (laneGenerator.ts) =====================

/-- One entry of the structured ranking response (selectedVideos):
1-based candidate index, relevance score, justification.  The index is an
integer because the Generation Service output is untrusted. -/
structure RankSelection where
  index : ℤ
  relevanceScore : ℤ
  reason : String
deriving DecidableEq, Repr

/-- Zero left-padding to width 2 (padStart(2, tens digit)). -/
def padTwoZero (s : String) : String :=
  String.mk (List.replicate (2 - s.length) (Char.ofNat 48)) ++ s

/-- Embedding of formatDuration (youtube.ts:49-58). -/
def formatDuration (seconds : ℕ) : String :=
  let hours := seconds / 3600
  let minutes := (seconds % 3600) / 60
  let secs := seconds % 60
  if hours > 0 then
    toString hours ++ ":" ++ padTwoZero (toString minutes) ++ ":"
      ++ padTwoZero (toString secs)
  else
    toString minutes ++ ":" ++ padTwoZero (toString secs)

/-- The lane item built from a selected candidate
(laneGenerator.ts:171-183). -/
structure GeneratedLaneItem where
  title : String
  thumbnailUrl : String
  videoId : String
  loop : Bool
  relevanceScore : ℤ
  reason : String
  duration : String
  channelTitle : String
deriving DecidableEq, Repr

def mkLaneItem (v : Video) (s : RankSelection) : GeneratedLaneItem :=
  { title := v.title, thumbnailUrl := v.thumbnailUrl, videoId := v.videoId
    loop := false, relevanceScore := s.relevanceScore, reason := s.reason
    duration := formatDuration v.durationSeconds, channelTitle := v.channelTitle }

/-- The defensive bounds filter of the assembly step
(laneGenerator.ts:167): s.index > 0 && s.index <= allVideos.length. -/
def boundsFilter (selections : List RankSelection) (n : ℕ) : List RankSelection :=
  selections.filter (fun s => decide (0 < s.index) && decide (s.index ≤ (n : ℤ)))

/-- Embedding of the assembly step (laneGenerator.ts:166-184): filter the
selections by bounds, take at most maxVideos of them, and map each back
to the candidate at its 1-based index.  The JavaScript array access
allVideos[s.index - 1] is modelled by the optional lookup; an
out-of-bounds access, which would make the item construction crash, is
the none value. -/
def selectItems (selections : List RankSelection) (allVideos : List Video)
    (maxVideos : ℕ) : List (Option GeneratedLaneItem) :=
  ((boundsFilter selections allVideos.length).take maxVideos).map
    (fun s => (allVideos.get? (s.index - 1).toNat).map (fun v => mkLaneItem v s))

/-- C8: selections whose 1-based index lies outside [1, N] are dropped by
the bounds filter, and every item the assembly step produces comes from a
successful in-bounds lookup - the candidate at the selected index - so
the step never dereferences a missing candidate. -/
theorem C8_bounds_safety (selections : List RankSelection) (allVideos : List Video)
    (maxVideos : ℕ) :
    (∀ s ∈ selections, (s.index ≤ 0 ∨ (allVideos.length : ℤ) < s.index) →
      s ∉ boundsFilter selections allVideos.length) ∧
    (∀ o ∈ selectItems selections allVideos maxVideos,
      ∃ s v, s ∈ selections ∧ 0 < s.index ∧ s.index ≤ (allVideos.length : ℤ) ∧
        allVideos.get? (s.index - 1).toNat = some v ∧ o = some (mkLaneItem v s)) := by
  constructor
  · intro s hs hout hmem
    rw [boundsFilter, List.mem_filter] at hmem
    have h2 := hmem.2
    simp only [Bool.and_eq_true, decide_eq_true_eq] at h2
    omega
  · intro o ho
    rw [selectItems] at ho
    obtain ⟨s, hs, rfl⟩ := List.mem_map.mp ho
    have hsf : s ∈ boundsFilter selections allVideos.length :=
      List.mem_of_mem_take hs
    rw [boundsFilter, List.mem_filter] at hsf
    have hb := hsf.2
    simp only [Bool.and_eq_true, decide_eq_true_eq] at hb
    have hlt : (s.index - 1).toNat < allVideos.length := by omega
    have hv : allVideos.get? (s.index - 1).toNat
        = some (allVideos.get ⟨(s.index - 1).toNat, hlt⟩) :=
      List.get?_eq_get hlt
    exact ⟨s, allVideos.get ⟨(s.index - 1).toNat, hlt⟩, hsf.1, hb.1, hb.2, hv,
      by rw [hv]; rfl⟩

theorem C8_witness :
    (⟨7, 50, "r"⟩ : RankSelection) ∉
      boundsFilter [⟨7, 50, "r"⟩] ([sampleVideo "v1"].length) ∧
    (∃ s v, s ∈ [(⟨1, 50, "r"⟩ : RankSelection)] ∧ 0 < s.index ∧
      s.index ≤ (([sampleVideo "v1"]).length : ℤ) ∧
      ([sampleVideo "v1"]).get? (s.index - 1).toNat = some v ∧
      some (mkLaneItem (sampleVideo "v1") ⟨1, 50, "r"⟩) = some (mkLaneItem v s)) :=
  ⟨(C8_bounds_safety [⟨7, 50, "r"⟩] [sampleVideo "v1"] 8).1 ⟨7, 50, "r"⟩
      (List.mem_singleton_self _) (Or.inr (by decide)),
   (C8_bounds_safety [⟨1, 50, "r"⟩] [sampleVideo "v1"] 8).2
      (some (mkLaneItem (sampleVideo "v1") ⟨1, 50, "r"⟩))
      (by rw [show selectItems [(⟨1, 50, "r"⟩ : RankSelection)] [sampleVideo "v1"] 8
            = [some (mkLaneItem (sampleVideo "v1") ⟨1, 50, "r"⟩)] from rfl]
          exact List.mem_singleton_self _)⟩

-- ===================== Structured generation parsing (Gemini provider) =====================

/-- The backquote character, written by code point to keep the source
free of literal fence characters. -/
def backquote : Char := Char.ofNat 96

/-- Whitespace as matched by the regex class: space, tab, newline,
carriage return (the ASCII core of the JavaScript class). -/
def isWS (c : Char) : Bool := c = ' ' || c = '\t' || c = '\n' || c = '\r'

/-- Whether the text begins with a three-backquote fence. -/
def startsWithFence : List Char → Bool
  | c1 :: c2 :: c3 :: _ =>
    decide (c1 = backquote) && decide (c2 = backquote) && decide (c3 = backquote)
  | _ => false

/-- Scan for the leftmost fence; return the suffix after it. -/
def afterFence : List Char → Option (List Char)
  | [] => none
  | c :: rest =>
    if startsWithFence (c :: rest) then some (rest.drop 2) else afterFence rest

def containsFence (l : List Char) : Bool := (afterFence l).isSome

/-- Content before the leftmost fence; none when no fence occurs.  This
is the lazy group of the extraction regex: it ends at the first closing
fence. -/
def takeUntilFence : List Char → Option (List Char)
  | [] => none
  | c :: rest =>
    if startsWithFence (c :: rest) then some []
    else (takeUntilFence rest).map (fun t => c :: t)

def jsonTag : List Char := ['j', 's', 'o', 'n']

/-- The optional json language tag directly after the opening fence. -/
def stripJsonTag (l : List Char) : List Char :=
  if l.take 4 = jsonTag then l.drop 4 else l

/-- Trailing-whitespace trim, the effect of the whitespace class between
the lazy group and the closing fence. -/
def trimTrailWS (l : List Char) : List Char := (l.reverse.dropWhile isWS).reverse

/-- Extraction performed by the recovery regex of generateJSON: find the
leftmost opening fence, skip an optional json tag and leading
whitespace, capture lazily up to the next fence, and trim trailing
whitespace; no match when the text holds no fence pair. -/
def extractFenced (text : List Char) : Option (List Char) :=
  match afterFence text with
  | none => none
  | some afterOpen =>
    match takeUntilFence ((stripJsonTag afterOpen).dropWhile isWS) with
    | none => none
    | some content => some (trimTrailWS content)

/-- A payload wrapped in a Markdown fenced code block with the json tag,
the canonical shape the recovery path is built for. -/
def fenceWrap (body : List Char) : List Char :=
  backquote :: backquote :: backquote :: 'j' :: 's' :: 'o' :: 'n' :: '\n' ::
    (body ++ '\n' :: backquote :: backquote :: [backquote])

/-- The two failure shapes of generateJSON: the extracted block also
fails to parse (the second JSON.parse throws), or no block is found and
the provider throws its own error. -/
inductive GenJSONError where
  | secondParseFailed (body : List Char)
  | failedToParse (text : List Char)
deriving DecidableEq, Repr

/-- Embedding of GeminiProvider.generateJSON (lines 51-60): parse the
raw payload; on failure extract a fenced block and parse its body; throw
only when both attempts fail.  The parser is abstract - any partial
function standing for JSON.parse composed with the expected shape. -/
def generateJSON {α : Type} (parse : List Char → Option α) (text : List Char) :
    Except GenJSONError α :=
  match parse text with
  | some v => .ok v
  | none =>
    match extractFenced text with
    | some body =>
      match parse body with
      | some v => .ok v
      | none => .error (.secondParseFailed body)
    | none => .error (.failedToParse text)

theorem containsFence_cons (c : Char) (l : List Char) :
    containsFence (c :: l) = (startsWithFence (c :: l) || containsFence l) := by
  cases h : startsWithFence (c :: l) with
  | true => simp [containsFence, afterFence, h]
  | false => simp [containsFence, afterFence, h]

theorem dropWhile_length_le (p : Char → Bool) (l : List Char) :
    (l.dropWhile p).length ≤ l.length := by
  induction l with
  | nil => simp
  | cons a l ih =>
    rw [List.dropWhile_cons]
    by_cases hp : p a = true
    · rw [if_pos hp]
      exact Nat.le_succ_of_le ih
    · rw [if_neg hp]

theorem takeUntilFence_wrap (body rest : List Char)
    (h : containsFence body = false) :
    takeUntilFence (body ++ '\n' :: backquote :: backquote :: backquote :: rest)
      = some (body ++ ['\n']) := by
  induction body with
  | nil =>
    rw [List.nil_append]
    simp +decide [takeUntilFence, startsWithFence]
  | cons c t ih =>
    rw [containsFence_cons, Bool.or_eq_false_iff] at h
    obtain ⟨hsf, hct⟩ := h
    have hinner := ih hct
    have hs2 : startsWithFence
        (c :: (t ++ '\n' :: backquote :: backquote :: backquote :: rest)) = false := by
      match t, hsf with
      | [], _ => simp +decide [startsWithFence]
      | [b0], _ => simp +decide [startsWithFence]
      | b0 :: b1 :: t1, hsf =>
        simp only [List.cons_append]
        simp only [startsWithFence] at hsf ⊢
        exact hsf
    rw [List.cons_append]
    simp only [takeUntilFence]
    rw [hs2]
    simp only [Bool.false_eq_true, if_false]
    rw [hinner]
    simp

theorem trimTrail_append_newline (body : List Char)
    (h3 : body.reverse.dropWhile isWS = body.reverse) :
    trimTrailWS (body ++ ['\n']) = body := by
  unfold trimTrailWS
  rw [List.reverse_append]
  simp only [List.reverse_cons, List.reverse_nil, List.nil_append, List.singleton_append]
  rw [List.dropWhile_cons]
  simp +decide [h3]

theorem extractFenced_wrap (body : List Char) (h1 : containsFence body = false)
    (h2 : body.dropWhile isWS = body)
    (h3 : body.reverse.dropWhile isWS = body.reverse) :
    extractFenced (fenceWrap body) = some body := by
  cases body with
  | nil => decide
  | cons b t =>
    have hb : isWS b = false := by
      rw [List.dropWhile_cons] at h2
      by_cases hw : isWS b = true
      · rw [if_pos hw] at h2
        have hlen := congrArg List.length h2
        have hle := dropWhile_length_le isWS t
        simp at hlen
        omega
      · simpa using hw
    have hopen : afterFence (fenceWrap (b :: t)) =
        some ('j' :: 's' :: 'o' :: 'n' :: '\n' ::
          ((b :: t) ++ '\n' :: backquote :: backquote :: [backquote])) := by
      rw [fenceWrap]
      simp only [afterFence]
      rw [show startsWithFence (backquote :: backquote :: backquote :: 'j' :: 's' :: 'o'
        :: 'n' :: '\n' :: ((b :: t) ++ '\n' :: backquote :: backquote :: [backquote]))
          = true from by simp [startsWithFence]]
      simp
    have hstrip : stripJsonTag ('j' :: 's' :: 'o' :: 'n' :: '\n' ::
        ((b :: t) ++ '\n' :: backquote :: backquote :: [backquote]))
        = '\n' :: ((b :: t) ++ '\n' :: backquote :: backquote :: [backquote]) := rfl
    have hdw : (('\n' :: ((b :: t) ++ '\n' :: backquote :: backquote :: [backquote]))).dropWhile isWS
        = (b :: t) ++ '\n' :: backquote :: backquote :: [backquote] := by
      rw [List.dropWhile_cons]
      simp +decide only []
      rw [List.cons_append, List.dropWhile_cons, hb]
      simp
    have htake := takeUntilFence_wrap (b :: t) [] h1
    unfold extractFenced
    rw [hopen]
    simp only [hstrip, hdw]
    rw [htake]
    simp only []
    rw [trimTrail_append_newline (b :: t) h3]

/-- C9: generateJSON returns the parse of the raw payload when that
parse succeeds; otherwise, when the payload is a fenced code block whose
body parses, the fence is stripped and the parsed body is returned; an
error is thrown exactly when the raw parse fails and the recovery parse
cannot succeed (no fenced block, or its body fails to parse too).  The
last part shows the canonical wrapped payload is extracted exactly. -/
theorem C9_fenced_recovery {α : Type} (parse : List Char → Option α)
    (text : List Char) :
    (∀ v, parse text = some v → generateJSON parse text = .ok v) ∧
    (∀ body v, parse text = none → extractFenced text = some body →
      parse body = some v → generateJSON parse text = .ok v) ∧
    ((∃ e, generateJSON parse text = .error e) ↔
      (parse text = none ∧
        ∀ body, extractFenced text = some body → parse body = none)) ∧
    (∀ body, containsFence body = false → body.dropWhile isWS = body →
      body.reverse.dropWhile isWS = body.reverse →
      extractFenced (fenceWrap body) = some body) := by
  refine ⟨?_, ?_, ?_, ?_⟩
  · intro v hv
    unfold generateJSON
    rw [hv]
  · intro body v hn hx hb
    simp [generateJSON, hn, hx, hb]
  · cases hp : parse text with
    | some v => simp [generateJSON, hp]
    | none =>
      cases hx : extractFenced text with
      | none => simp [generateJSON, hp, hx]
      | some body =>
        cases hb : parse body with
        | some v => simp [generateJSON, hp, hx, hb]
        | none => simp [generateJSON, hp, hx, hb]
  · intro body hf hl ht
    exact extractFenced_wrap body hf hl ht

/-- Parser used by the C9 witness. -/
def sampleParse : List Char → Option ℕ :=
  fun l => if l = ['o', 'k'] then some 7 else none

theorem C9_witness :
    generateJSON sampleParse (fenceWrap ['o', 'k']) = .ok 7 :=
  (C9_fenced_recovery sampleParse (fenceWrap ['o', 'k'])).2.1 ['o', 'k'] 7
    (by decide)
    ((C9_fenced_recovery sampleParse (fenceWrap ['o', 'k'])).2.2.2 ['o', 'k']
      (by decide) (by decide) (by decide))
    (by decide)

-- ===================== ISO-8601 duration parsing (youtube.ts) =====================

/-- Decimal value of a digit run, the effect of parseInt on the captured
group. -/
def digitsVal (ds : List Char) : ℕ := ds.foldl (fun a c => a * 10 + (c.toNat - 48)) 0

/-- Whether the text begins with the literal PT. -/
def startsWithPT : List Char → Bool
  | c1 :: c2 :: _ => decide (c1 = 'P') && decide (c2 = 'T')
  | _ => false

/-- Scan for the leftmost PT occurrence (the extraction regex is not
anchored); return the suffix after it, none when PT never occurs (the
null-match case of the source, which returns 0). -/
def afterPT : List Char → Option (List Char)
  | [] => none
  | c :: rest =>
    if startsWithPT (c :: rest) then some (rest.drop 1) else afterPT rest

/-- One optional component of the pattern: a non-empty digit run
followed by the given unit letter.  When the text does not start with
such a run the component is skipped (contributing 0) and the text is
left in place, exactly as the optional regex group behaves. -/
def matchComponent (letter : Char) (l : List Char) : ℕ × List Char :=
  let ds := l.takeWhile (fun c => c.isDigit)
  let rest := l.dropWhile (fun c => c.isDigit)
  match rest with
  | c :: rest2 => if ds ≠ [] ∧ c = letter then (digitsVal ds, rest2) else (0, l)
  | [] => (0, l)

/-- Embedding of parseDuration (youtube.ts:37-46): find PT, read the
optional hour, minute and second components, combine as
hours * 3600 + minutes * 60 + seconds; 0 when PT never occurs.  The
function is total on every input string and its result is a natural
number, which models that the source never throws and never returns a
negative value. -/
def parseDuration (l : List Char) : ℕ :=
  match afterPT l with
  | none => 0
  | some rest =>
    let h := matchComponent 'H' rest
    let m := matchComponent 'M' h.2
    let s := matchComponent 'S' m.2
    h.1 * 3600 + m.1 * 60 + s.1

/-- Optional component text: a digit run plus its unit letter, or
nothing. -/
def compStr : Option (List Char) → Char → List Char
  | none, _ => []
  | some ds, c => ds ++ [c]

/-- Value contributed by an optional component. -/
def optVal : Option (List Char) → ℕ
  | none => 0
  | some ds => digitsVal ds

/-- A present component is a non-empty digit run. -/
def optDigits : Option (List Char) → Prop
  | none => True
  | some ds => ds ≠ [] ∧ ∀ c ∈ ds, c.isDigit = true

theorem takeWhile_digits (ds : List Char) (hds : ∀ c ∈ ds, c.isDigit = true)
    (c : Char) (hc : c.isDigit = false) (t : List Char) :
    (ds ++ c :: t).takeWhile (fun x => x.isDigit) = ds ∧
    (ds ++ c :: t).dropWhile (fun x => x.isDigit) = c :: t := by
  induction ds with
  | nil =>
    simp only [List.nil_append, List.takeWhile_cons, List.dropWhile_cons, hc]
    simp
  | cons d ds ih =>
    have hd : d.isDigit = true := hds d (List.mem_cons_self _ _)
    have ih2 := ih (fun x hx => hds x (List.mem_cons_of_mem _ hx))
    simp only [List.cons_append, List.takeWhile_cons, List.dropWhile_cons, hd]
    simp only [if_true]
    exact ⟨by rw [ih2.1], by rw [ih2.2]⟩

theorem matchComponent_hit (letter : Char) (hl : letter.isDigit = false)
    (ds : List Char) (hne : ds ≠ []) (hds : ∀ c ∈ ds, c.isDigit = true)
    (t : List Char) :
    matchComponent letter (ds ++ letter :: t) = (digitsVal ds, t) := by
  obtain ⟨h1, h2⟩ := takeWhile_digits ds hds letter hl t
  unfold matchComponent
  rw [h1, h2]
  simp [hne]

theorem matchComponent_miss (letter c2 : Char) (hc2 : c2.isDigit = false)
    (hne2 : c2 ≠ letter) (ds : List Char) (hds : ∀ c ∈ ds, c.isDigit = true)
    (t : List Char) :
    matchComponent letter (ds ++ c2 :: t) = (0, ds ++ c2 :: t) := by
  obtain ⟨h1, h2⟩ := takeWhile_digits ds hds c2 hc2 t
  unfold matchComponent
  rw [h1, h2]
  simp [hne2]

theorem matchComponent_nil (letter : Char) : matchComponent letter [] = (0, []) := rfl

theorem afterPT_here (X : List Char) : afterPT ('P' :: 'T' :: X) = some X := by
  simp only [afterPT]
  rw [show startsWithPT ('P' :: 'T' :: X) = true from by simp [startsWithPT]]
  simp

theorem parseDuration_PT (X : List Char) :
    parseDuration ('P' :: 'T' :: X) =
      (matchComponent 'H' X).1 * 3600 +
      (matchComponent 'M' (matchComponent 'H' X).2).1 * 60 +
      (matchComponent 'S' (matchComponent 'M' (matchComponent 'H' X).2).2).1 := by
  unfold parseDuration
  rw [afterPT_here]

/-- C10: parseDuration is total with a natural-number result (never
throws, never negative); a string without the PT pattern parses to 0;
and on a PT form with any subset of the hour, minute, second components
present, each matching component contributes its value times its unit
and each absent component contributes 0. -/
theorem C10_parse_duration_total :
    (∀ l, afterPT l = none → parseDuration l = 0) ∧
    (∀ l, afterPT l = none ↔ ¬ ∃ pre post, l = pre ++ 'P' :: 'T' :: post) ∧
    (∀ (ho hm hsec : Option (List Char)),
      optDigits ho → optDigits hm → optDigits hsec →
      parseDuration
          ('P' :: 'T' :: (compStr ho 'H' ++ (compStr hm 'M' ++ compStr hsec 'S')))
        = optVal ho * 3600 + optVal hm * 60 + optVal hsec) := by
  refine ⟨?_, ?_, ?_⟩
  · intro l h
    unfold parseDuration
    rw [h]
  · intro l
    induction l with
    | nil =>
      constructor
      · intro _ h
        obtain ⟨pre, post, hp⟩ := h
        exact absurd hp (by simp)
      · intro _
        rfl
    | cons c rest ih =>
      cases hsw : startsWithPT (c :: rest) with
      | true =>
        rcases rest with _ | ⟨c2, rest2⟩
        · simp [startsWithPT] at hsw
        · simp only [startsWithPT, Bool.and_eq_true, decide_eq_true_eq] at hsw
          obtain ⟨rfl, rfl⟩ := hsw
          constructor
          · intro h
            rw [afterPT_here] at h
            exact absurd h (by simp)
          · intro h
            exact absurd ⟨[], rest2, rfl⟩ h
      | false =>
        have heq : afterPT (c :: rest) = afterPT rest := by
          simp only [afterPT, hsw]
          simp
        have hiff : (∃ pre post, c :: rest = pre ++ 'P' :: 'T' :: post) ↔
            (∃ pre post, rest = pre ++ 'P' :: 'T' :: post) := by
          constructor
          · rintro ⟨pre, post, hp⟩
            rcases pre with _ | ⟨p0, pre2⟩
            · rw [List.nil_append] at hp
              injection hp with h1 h2
              subst h1
              subst h2
              simp [startsWithPT] at hsw
            · rw [List.cons_append] at hp
              injection hp with h1 h2
              exact ⟨pre2, post, h2⟩
          · rintro ⟨pre, post, hp⟩
            exact ⟨c :: pre, post, by rw [List.cons_append, hp]⟩
        rw [heq, ih, hiff]
  · intro ho hm hsec hho hhm hhsec
    rw [parseDuration_PT]
    rcases ho with _ | dh <;> rcases hm with _ | dm <;> rcases hsec with _ | dsS
    · simp [compStr, optVal, matchComponent_nil]
    · obtain ⟨hne, hds⟩ := hhsec
      simp only [compStr, List.nil_append]
      rw [matchComponent_miss 'H' 'S' (by decide) (by decide) dsS hds []]
      rw [matchComponent_miss 'M' 'S' (by decide) (by decide) dsS hds []]
      rw [matchComponent_hit 'S' (by decide) dsS hne hds []]
      simp [optVal]
    · obtain ⟨hne, hds⟩ := hhm
      simp only [compStr, List.nil_append, List.append_nil]
      rw [matchComponent_miss 'H' 'M' (by decide) (by decide) dm hds []]
      rw [matchComponent_hit 'M' (by decide) dm hne hds []]
      rw [matchComponent_nil]
      simp [optVal]
    · obtain ⟨hnem, hdsm⟩ := hhm
      obtain ⟨hnes, hdss⟩ := hhsec
      simp only [compStr, List.nil_append, List.append_assoc, List.singleton_append]
      rw [matchComponent_miss 'H' 'M' (by decide) (by decide) dm hdsm _]
      rw [matchComponent_hit 'M' (by decide) dm hnem hdsm _]
      rw [matchComponent_hit 'S' (by decide) dsS hnes hdss []]
      simp [optVal]
    · obtain ⟨hne, hds⟩ := hho
      simp only [compStr, List.nil_append, List.append_nil]
      rw [matchComponent_hit 'H' (by decide) dh hne hds []]
      rw [matchComponent_nil, matchComponent_nil]
      simp [optVal]
    · obtain ⟨hneh, hdsh⟩ := hho
      obtain ⟨hnes, hdss⟩ := hhsec
      simp only [compStr, List.nil_append, List.append_assoc, List.singleton_append]
      rw [matchComponent_hit 'H' (by decide) dh hneh hdsh _]
      rw [matchComponent_miss 'M' 'S' (by decide) (by decide) dsS hdss []]
      rw [matchComponent_hit 'S' (by decide) dsS hnes hdss []]
      simp [optVal]
    · obtain ⟨hneh, hdsh⟩ := hho
      obtain ⟨hnem, hdsm⟩ := hhm
      simp only [compStr, List.nil_append, List.append_nil, List.append_assoc,
        List.singleton_append]
      rw [matchComponent_hit 'H' (by decide) dh hneh hdsh _]
      rw [matchComponent_hit 'M' (by decide) dm hnem hdsm []]
      rw [matchComponent_nil]
      simp [optVal]
    · obtain ⟨hneh, hdsh⟩ := hho
      obtain ⟨hnem, hdsm⟩ := hhm
      obtain ⟨hnes, hdss⟩ := hhsec
      simp only [compStr, List.nil_append, List.append_assoc, List.singleton_append]
      rw [matchComponent_hit 'H' (by decide) dh hneh hdsh _]
      rw [matchComponent_hit 'M' (by decide) dm hnem hdsm _]
      rw [matchComponent_hit 'S' (by decide) dsS hnes hdss []]
      simp [optVal]

theorem C10_witness :
    parseDuration ('P' :: 'T' :: (compStr (some ['1']) 'H'
        ++ (compStr (some ['2']) 'M' ++ compStr (some ['3']) 'S')))
      = optVal (some ['1']) * 3600 + optVal (some ['2']) * 60 + optVal (some ['3']) :=
  C10_parse_duration_total.2.2 (some ['1']) (some ['2']) (some ['3'])
    (by constructor <;> decide) (by constructor <;> decide) (by constructor <;> decide)
